import Mathlib

/-!
Verification development for the mempool.radio audio-visual core.

The definitions below are a shallow embedding, translated from the
TypeScript source, of: the pure mapping functions (hue from fee rate,
radius from value, pitch from value), the audio engine trigger logic
(`playTransaction`, `playBlockConfirm`), the beat dispatcher
(`handleNewTransaction`, `processNextTransaction`), and the particle
render pass.  JavaScript numbers are modelled as rationals wherever the
code only uses field arithmetic and comparisons, and as reals where the
code calls `Math.log10` or `Math.sqrt`.  `Math.random()` draws are made
explicit parameters.  Theorems after the definitions settle the
specification claims.
-/

namespace MempoolRadio

/-- Hue from fee rate, translated from `getHueFromFeeRate` in the
Visualizer component:
`if (feeRate <= 1) return 210;`
`if (feeRate <= 50) return 210 - (feeRate / 50) * 70;`
`if (feeRate <= 150) return 140 - ((feeRate - 50) / 100) * 95;`
`return Math.max(0, 45 - ((feeRate - 150) / 250) * 45);` -/
def getHueFromFeeRate (feeRate : ℚ) : ℚ :=
  if feeRate ≤ 1 then 210
  else if feeRate ≤ 50 then 210 - (feeRate / 50) * 70
  else if feeRate ≤ 150 then 140 - ((feeRate - 50) / 100) * 95
  else max 0 (45 - ((feeRate - 150) / 250) * 45)

/-- Radius of the particle spawned by `addTransaction` in the Visualizer
component, translated from:
`const btc = tx.value / 100_000_000;`
`const radius = Math.max(20, Math.min(180, Math.sqrt(btc * 30000) + 30));`
The value is in satoshis. -/
noncomputable def radiusFromValue (valueSats : ℝ) : ℝ :=
  max 20 (min 180 (Real.sqrt (valueSats / 100000000 * 30000) + 30))

/-- Fixed 16-note scale of the audio engine (`DRUM_FREQUENCIES`), a
G Mixolydian scale ascending from 196 Hz (G3) to 880 Hz (A5).  The
decimal frequencies of the source are exact rationals. -/
def DRUM_FREQUENCIES : List ℚ :=
  [196.00, 220.00, 246.94, 261.63, 293.66, 329.63, 349.23, 392.00,
   440.00, 493.88, 523.25, 587.33, 659.25, 698.46, 783.99, 880.00]

/-- Normalized logarithmic position computed by
`AudioEngine.getFrequencyFromValue`:
`const clampedVal = Math.max(low, Math.min(high, btcValue));`
`const ratio = (logVal - logMin) / (logMax - logMin);`
with `logMin = Math.log10(low)`, `logMax = Math.log10(high)` and
`logVal = Math.log10(clampedVal)`. -/
noncomputable def freqPos (btcValue low high : ℝ) : ℝ :=
  (Real.logb 10 (max low (min high btcValue)) - Real.logb 10 low) /
    (Real.logb 10 high - Real.logb 10 low)

/-- Scale index computed by `AudioEngine.getFrequencyFromValue`:
`const index = Math.floor((1 - ratio) * (this.DRUM_FREQUENCIES.length - 1));`
where the scale has 16 entries.  The JavaScript number is used as an
array index; for the tiers of the source (`0 < low < high`) it is shown
below to lie in `[0, 15]`, and it is modelled as `Int.toNat` of the
floor. -/
noncomputable def freqIndex (btcValue low high : ℝ) : ℕ :=
  (⌊(1 - freqPos btcValue low high) * 15⌋).toNat

/-- Pitch selection translated from `AudioEngine.getFrequencyFromValue`:
`return this.DRUM_FREQUENCIES[index];`. -/
noncomputable def getFrequencyFromValue (btcValue low high : ℝ) : ℚ :=
  DRUM_FREQUENCIES.getD (freqIndex btcValue low high) 0

/-- State of the output `AudioContext` (`this.ctx.state`). -/
inductive CtxState
  | running
  | suspended
  | closed
deriving DecidableEq

/-- Persistent fields of the `AudioEngine` that gate voice creation:
`ctx` is `none` while no output context exists and otherwise carries the
context state; `masterGain` and `reverb` record whether those nodes have
been created. -/
structure EngineState where
  ctx : Option CtxState
  masterGain : Bool
  reverb : Bool
deriving DecidableEq

/-- Transient synthesized voices.  Each constructor records one audible
event scheduled by a trigger method; oscillator and envelope internals
are not observable by any claim.  `organSkank` synthesizes three partials
at ratios 1, 2 and 1.5 of its base frequency and is recorded as a single
voice event at the base frequency; `steelDrum` records whether the voice
is also routed through the shared reverb. -/
inductive Voice
  | organSkank (freq : ℚ)
  | whaleStrike
  | steelDrum (freq : ℚ) (toReverb : Bool)
  | marimba (freq : ℚ)
  | ukulele (freq : ℚ)
  | chimeNote (freq : ℚ)
deriving DecidableEq

/-- Pitched instrument-tier voices (whale drone, steel drum, marimba,
ukulele pluck), as opposed to the decorative organ accent and the
startup chime. -/
def isPitched : Voice → Bool
  | Voice.whaleStrike => true
  | Voice.steelDrum _ _ => true
  | Voice.marimba _ => true
  | Voice.ukulele _ => true
  | _ => false

/-- Guard shared by every private voice constructor of the engine:
`if (!this.ctx || !this.masterGain) return;`. -/
def voiceGuard (eng : EngineState) : Bool :=
  eng.ctx.isSome && eng.masterGain

/-- Organ accent (`createOrganSkank`): fires unless the shared guard
trips. -/
def createOrganSkank (eng : EngineState) (freq : ℚ) : List Voice :=
  if voiceGuard eng then [Voice.organSkank freq] else []

/-- Whale drone (`createWhaleStrike`): fixed 49 Hz sine, 5 s decay; the
value only shapes the envelope, which is not observable here. -/
def createWhaleStrike (eng : EngineState) (_btcValue : ℚ) : List Voice :=
  if voiceGuard eng then [Voice.whaleStrike] else []

/-- Steel drum voice (`createSteelDrumStrike`): additionally routed to
the shared reverb when that node exists. -/
def createSteelDrumStrike (eng : EngineState) (freq : ℚ) (_btcValue : ℚ) :
    List Voice :=
  if voiceGuard eng then [Voice.steelDrum freq eng.reverb] else []

/-- Marimba voice (`createMarimbaStrike`). -/
def createMarimbaStrike (eng : EngineState) (freq : ℚ) (_btcValue : ℚ) :
    List Voice :=
  if voiceGuard eng then [Voice.marimba freq] else []

/-- Ukulele pluck (`createUkulelePluck`); the source plays the voice an
octave up (`freq * 2`), recorded as such. -/
def createUkulelePluck (eng : EngineState) (freq : ℚ) (_btcValue : ℚ) :
    List Voice :=
  if voiceGuard eng then [Voice.ukulele (freq * 2)] else []

/-- Startup chime (`playStartupChime`): four ascending notes, guarded by
`if (!this.ctx) return;`. -/
def playStartupChime (eng : EngineState) : List Voice :=
  if eng.ctx.isSome then
    [Voice.chimeNote 196, Voice.chimeNote 246.94, Voice.chimeNote 293.66,
     Voice.chimeNote 392]
  else []

/-- Audio trigger translated from `AudioEngine.playTransaction`:
`if (!this.ctx || this.ctx.state !== 'running') return;` then the skank
accent on beat positions {4, 12} mod 16 when the value is positive or a
`Math.random()` draw (the `rand` parameter) is below 0.3; then the
instrument tier selected from the BTC value.  The value is in satoshis;
returns the voices scheduled by the call (no engine field is written by
the source method). -/
noncomputable def playTransaction (eng : EngineState) (valueSats : ℚ)
    (beatPos : ℕ) (rand : ℚ) : List Voice :=
  if eng.ctx ≠ some CtxState.running then []
  else
    let btcValue := valueSats / 100000000
    let skank := if (beatPos % 16 = 4 ∨ beatPos % 16 = 12) ∧
        (0 < btcValue ∨ rand < 0.3)
      then createOrganSkank eng 392 else []
    if btcValue ≤ 0 then skank
    else
      skank ++
        (if 1 ≤ btcValue then createWhaleStrike eng btcValue
         else if 0.1 ≤ btcValue then
           createSteelDrumStrike eng
             (getFrequencyFromValue (btcValue : ℝ) 0.1 1) btcValue
         else if 0.01 ≤ btcValue then
           createMarimbaStrike eng
             (getFrequencyFromValue (btcValue : ℝ) 0.01 0.1) btcValue
         else
           createUkulelePluck eng
             (getFrequencyFromValue (btcValue : ℝ) 0.00001 0.01) btcValue)

/-- Block-confirmation cue translated from `AudioEngine.playBlockConfirm`:
`if (!this.ctx || !this.masterGain) return; this.playStartupChime();`
The guard checks only that the context and master gain EXIST, not that
the context is in the running state. -/
def playBlockConfirm (eng : EngineState) : List Voice :=
  if eng.ctx.isSome && eng.masterGain then playStartupChime eng else []

/-- Transaction record as pushed into the pending queue by
`handleNewTransaction` (`{ ...tx, value, feeRate }`): after defaulting,
the value and fee rate are definite numbers.  String id fields carry no
information for any claim and are omitted. -/
structure QueuedTx where
  value : ℚ
  feeRate : ℚ
deriving DecidableEq

/-- Raw ingested transaction record as seen by `handleNewTransaction`;
each numeric field may be absent (`undefined`). -/
structure RawTx where
  value? : Option ℚ
  vsize? : Option ℚ
  fee? : Option ℚ
  feeRate? : Option ℚ
deriving DecidableEq

/-- JavaScript `x || fallback` on an optional numeric field: `undefined`
and `0` are falsy, every other (rational) number is truthy. -/
def jsOr (x : Option ℚ) (fallback : ℚ) : ℚ :=
  match x with
  | some v => if v = 0 then fallback else v
  | none => fallback

/-- Defaulted value computed by `handleNewTransaction`:
`const value = tx.value || (tx.vsize ? tx.vsize * 120 : 10000);`. -/
def handleValue (tx : RawTx) : ℚ :=
  jsOr tx.value?
    (match tx.vsize? with
      | some s => if s = 0 then 10000 else s * 120
      | none => 10000)

/-- Defaulted fee rate computed by `handleNewTransaction`:
`const feeRate = tx.feeRate || (tx.fee ? tx.fee / tx.vsize : 1);`.
When the fee is truthy but `vsize` is absent the JavaScript expression
yields `NaN`; an absent `vsize` is modelled as 0, where rational
division returns 0.  No claim depends on this corner. -/
def handleFeeRate (tx : RawTx) : ℚ :=
  jsOr tx.feeRate?
    (match tx.fee? with
      | some f => if f = 0 then 1 else f / tx.vsize?.getD 0
      | none => 1)

/-- Queue entry built by `handleNewTransaction`. -/
def mkQueuedTx (tx : RawTx) : QueuedTx :=
  ⟨handleValue tx, handleFeeRate tx⟩

/-- Pending-queue update of `handleNewTransaction`:
`txQueue.current.push({ ...tx, value, feeRate });`
`if (txQueue.current.length > 5000) txQueue.current.splice(0, 500);`
(`splice(0, 500)` removes the 500 oldest entries in one bulk trim). -/
def handleNewTransaction (q : List QueuedTx) (tx : RawTx) : List QueuedTx :=
  let q2 := q ++ [mkQueuedTx tx]
  if 5000 < q2.length then q2.drop 500 else q2

/-- Dispatcher state owned by the App component: the pending queue, the
16-step beat index and whether audio has been started. -/
structure DispState where
  queue : List QueuedTx
  beatIndex : ℕ
  isAudioStarted : Bool

/-- Explicit `Math.random()` draws of one dispatcher tick: the trigger
draw, the ghost-note draw, and the draw consumed inside
`playTransaction` by the skank-accent condition. -/
structure TickRands where
  playRand : ℚ
  ghostRand : ℚ
  skankRand : ℚ

/-- Result of one dispatcher tick: the audio voices scheduled, the
transaction popped and forwarded (when any), whether a ghost cue was
emitted, the remaining queue, the next beat index and the delay after
which the loop reschedules itself. -/
structure TickResult where
  voices : List Voice
  popped : Option QueuedTx
  ghost : Bool
  queue' : List QueuedTx
  beatIndex' : ℕ
  delay : ℚ

/-- Swing factor of `processNextTransaction`:
`const swingFactor = qLen > 100 ? 1.8 : 1.4;`. -/
def swingFactor (qLen : ℕ) : ℚ :=
  if 100 < qLen then 1.8 else 1.4

/-- Step duration of one dispatcher tick (`BASE_INTERVAL = 200`): the
long-short swing pair chosen by beat parity, divided by the congestion
speed-up `Math.min(2.5, 1 + qLen / 150)`, floored at the minimum
duration 40. -/
def stepDuration (qLen beatIndex : ℕ) : ℚ :=
  let raw := if beatIndex % 2 = 0 then 200 * swingFactor qLen
    else 200 * (2 - swingFactor qLen)
  max 40 (raw / min 2.5 (1 + (qLen : ℚ) / 150))

/-- One tick of the beat dispatcher, translated from
`processNextTransaction` in the App component.  `eng` is the audio
engine state read by the nested `playTransaction` calls.  On a trigger,
the popped transaction is forwarded with `value = tx.value || 0` and
`feeRate = tx.feeRate || 1` to the audio engine and the particle engine
in lockstep; the `popped` field records that forwarded transaction.  On
a skipped even beat a ghost cue (`playTransaction(0, beat)`) may fire.
Finally the beat index advances modulo 16 and the loop reschedules
itself after `stepDuration`. -/
noncomputable def processNextTransaction (eng : EngineState) (st : DispState)
    (r : TickRands) : TickResult :=
  let qLen := st.queue.length
  let stepDur := stepDuration qLen st.beatIndex
  let probability : ℚ := if st.beatIndex % 4 = 0 then 0.95 else 0.6
  let beat2 := (st.beatIndex + 1) % 16
  if 0 < qLen ∧ r.playRand < probability then
    match st.queue with
    | [] => ⟨[], none, false, [], beat2, stepDur⟩
    | tx :: rest =>
      let v := if tx.value = 0 then 0 else tx.value
      let fr := if tx.feeRate = 0 then 1 else tx.feeRate
      ⟨playTransaction eng v st.beatIndex r.skankRand, some ⟨v, fr⟩, false,
        rest, beat2, stepDur⟩
  else if st.beatIndex % 2 = 0 ∧ st.isAudioStarted = true ∧ r.ghostRand < 0.2 then
    ⟨playTransaction eng 0 st.beatIndex r.skankRand, none, true,
      st.queue, beat2, stepDur⟩
  else
    ⟨[], none, false, st.queue, beat2, stepDur⟩

/-- Particle ("bubble") state of the Visualizer.  The per-vertex noise
phase offsets only shape the drawn outline, never the dynamics or the
removal condition, and are omitted together with the string id. -/
structure Bubble where
  x : ℚ
  y : ℚ
  radius : ℚ
  vx : ℚ
  vy : ℚ
  baseHue : ℚ
  alpha : ℚ
  life : ℚ
  value : ℚ
  feeRate : ℚ
  pulseOffset : ℚ
  isWhale : Bool
deriving DecidableEq

/-- Per-frame mutation of one bubble inside `render`:
`b.x += b.vx + Math.sin(time * 0.5 + b.pulseOffset) * 0.4;`
`b.y += b.vy;`
`b.life -= 0.0007;`
`b.alpha = Math.min(0.9, b.life * 3);`
(the alpha assignment reads the already decremented life).  `drift`
stands for the value of the transcendental term
`Math.sin(time * 0.5 + b.pulseOffset) * 0.4`. -/
def stepBubble (drift : ℚ) (b : Bubble) : Bubble :=
  { b with
    x := b.x + b.vx + drift
    y := b.y + b.vy
    life := b.life - 0.0007
    alpha := min 0.9 ((b.life - 0.0007) * 3) }

/-- Removal condition checked once per frame on the mutated bubble:
`if (b.life <= 0 || b.y + b.radius * 3 < 0) bubbles.splice(i, 1);`. -/
def shouldRemove (b : Bubble) : Bool :=
  decide (b.life ≤ 0) || decide (b.y + b.radius * 3 < 0)

/-- One full bubble pass of `render`: every live bubble is mutated, then
the mutated bubble is removed exactly when `shouldRemove` holds.  The
source iterates in reverse insertion order and splices in place, which
removes exactly the failing entries while preserving the order of the
survivors, i.e. a filter of the mutated list. -/
def renderPass (driftOf : Bubble → ℚ) (bs : List Bubble) : List Bubble :=
  (bs.map (fun b => stepBubble (driftOf b) b)).filter (fun b => !shouldRemove b)

lemma getHueFromFeeRate_nonneg (f : ℚ) : 0 ≤ getHueFromFeeRate f := by
  unfold getHueFromFeeRate
  split_ifs with h1 h2 h3
  · norm_num
  · linarith
  · linarith
  · exact le_max_left 0 _

lemma getHueFromFeeRate_antitone {f1 f2 : ℚ} (h : f1 ≤ f2) :
    getHueFromFeeRate f2 ≤ getHueFromFeeRate f1 := by
  unfold getHueFromFeeRate
  split_ifs <;>
    first
      | linarith
      | (apply max_le <;> linarith)
      | (exact max_le_max le_rfl (by linarith))

lemma getHueFromFeeRate_big {f : ℚ} (h : 400 ≤ f) : getHueFromFeeRate f = 0 := by
  unfold getHueFromFeeRate
  rw [if_neg (by linarith), if_neg (by linarith), if_neg (by linarith)]
  exact max_eq_left (by linarith)

lemma DRUM_FREQUENCIES_sorted : DRUM_FREQUENCIES.Sorted (· ≤ ·) := by
  simp [DRUM_FREQUENCIES, List.sorted_cons]
  norm_num

lemma DRUM_FREQUENCIES_getD_mono {i j : ℕ} (hij : i ≤ j)
    (hj : j < DRUM_FREQUENCIES.length) :
    DRUM_FREQUENCIES.getD i 0 ≤ DRUM_FREQUENCIES.getD j 0 := by
  have hi : i < DRUM_FREQUENCIES.length := lt_of_le_of_lt hij hj
  rw [List.getD_eq_getElem DRUM_FREQUENCIES 0 hi,
    List.getD_eq_getElem DRUM_FREQUENCIES 0 hj]
  exact DRUM_FREQUENCIES_sorted.rel_get_of_le
    (show (⟨i, hi⟩ : Fin DRUM_FREQUENCIES.length) ≤ ⟨j, hj⟩ from hij)

section FreqLemmas

variable {btcValue low high : ℝ}

lemma clamp_le_high (hlh : low < high) :
    max low (min high btcValue) ≤ high :=
  max_le hlh.le (min_le_left _ _)

lemma logb_den_pos (hl : 0 < low) (hlh : low < high) :
    0 < Real.logb 10 high - Real.logb 10 low :=
  sub_pos.mpr (Real.logb_lt_logb (by norm_num) hl hlh)

lemma freqPos_nonneg (hl : 0 < low) (hlh : low < high) :
    0 ≤ freqPos btcValue low high := by
  unfold freqPos
  have hnum : Real.logb 10 low ≤ Real.logb 10 (max low (min high btcValue)) :=
    Real.logb_le_logb_of_le (by norm_num) hl (le_max_left _ _)
  exact div_nonneg (by linarith) (logb_den_pos hl hlh).le

lemma freqPos_le_one (hl : 0 < low) (hlh : low < high) :
    freqPos btcValue low high ≤ 1 := by
  unfold freqPos
  have hc : 0 < max low (min high btcValue) := lt_of_lt_of_le hl (le_max_left _ _)
  have hnum : Real.logb 10 (max low (min high btcValue)) ≤ Real.logb 10 high :=
    Real.logb_le_logb_of_le (by norm_num) hc (clamp_le_high hlh)
  exact (div_le_one (logb_den_pos hl hlh)).mpr (by linarith)

lemma freqPos_mono (hl : 0 < low) (hlh : low < high) {v1 v2 : ℝ} (h : v1 ≤ v2) :
    freqPos v1 low high ≤ freqPos v2 low high := by
  unfold freqPos
  have hc1 : 0 < max low (min high v1) := lt_of_lt_of_le hl (le_max_left _ _)
  have hcle : max low (min high v1) ≤ max low (min high v2) :=
    max_le_max le_rfl (min_le_min le_rfl h)
  have hnum : Real.logb 10 (max low (min high v1)) ≤
      Real.logb 10 (max low (min high v2)) :=
    Real.logb_le_logb_of_le (by norm_num) hc1 hcle
  exact (div_le_div_iff_of_pos_right (logb_den_pos hl hlh)).mpr (by linarith)

lemma freqIndex_le_fifteen (hl : 0 < low) (hlh : low < high) :
    freqIndex btcValue low high ≤ 15 := by
  unfold freqIndex
  have h1 : (1 - freqPos btcValue low high) * 15 ≤ (15 : ℝ) := by
    have := @freqPos_nonneg btcValue low high hl hlh
    linarith
  have h2 : ⌊(1 - freqPos btcValue low high) * 15⌋ ≤ (15 : ℤ) := by
    have := Int.floor_mono h1
    simpa using this
  omega

lemma freqIndex_antitone (hl : 0 < low) (hlh : low < high)
    {v1 v2 : ℝ} (h : v1 ≤ v2) :
    freqIndex v2 low high ≤ freqIndex v1 low high := by
  unfold freqIndex
  have hpos := freqPos_mono hl hlh h
  have : (1 - freqPos v2 low high) * 15 ≤ (1 - freqPos v1 low high) * 15 := by
    linarith
  exact Int.toNat_le_toNat (Int.floor_mono this)

end FreqLemmas

lemma logb_ten_tenth : Real.logb 10 (1 / 10 : ℝ) = -1 := by
  rw [show (1 / 10 : ℝ) = (10 : ℝ)⁻¹ by norm_num, Real.logb_inv,
    Real.logb_self_eq_one (by norm_num)]

lemma freqPos_one_tier : freqPos 1 (1 / 10) 1 = 1 := by
  unfold freqPos
  rw [min_self, max_eq_right (by norm_num : (1 / 10 : ℝ) ≤ 1),
    Real.logb_one, logb_ten_tenth]
  norm_num

lemma freqPos_tenth_tier : freqPos (1 / 10) (1 / 10) 1 = 0 := by
  unfold freqPos
  rw [min_eq_right (by norm_num : (1 / 10 : ℝ) ≤ 1), max_self,
    Real.logb_one, logb_ten_tenth]
  norm_num

lemma getFrequencyFromValue_one_tier : getFrequencyFromValue 1 (1 / 10) 1 = 196 := by
  have hidx : freqIndex 1 (1 / 10) 1 = 0 := by
    unfold freqIndex
    rw [freqPos_one_tier]
    norm_num
  unfold getFrequencyFromValue
  rw [hidx]
  norm_num [DRUM_FREQUENCIES]

lemma getFrequencyFromValue_tenth_tier :
    getFrequencyFromValue (1 / 10) (1 / 10) 1 = 880 := by
  have hidx : freqIndex (1 / 10) (1 / 10) 1 = 15 := by
    unfold freqIndex
    rw [freqPos_tenth_tier]
    norm_num
    rfl
  unfold getFrequencyFromValue
  rw [hidx]
  norm_num [DRUM_FREQUENCIES]

/-- C2 counterexample: within the steel-drum tier `(low, high) = (0.1, 1)`
the pitch chosen by `getFrequencyFromValue` DROPS as the value grows: the
value at the low bound selects index 15 (880 Hz, the top of the scale)
while the value at the high bound selects index 0 (196 Hz, the bottom),
so the frequency is not monotonically non-decreasing in the value. -/
theorem getFrequencyFromValue_not_monotone :
    (0 : ℝ) < 1 / 10 ∧ (1 / 10 : ℝ) < 1 ∧ (1 / 10 : ℝ) ≤ 1 ∧
      getFrequencyFromValue 1 (1 / 10) 1 < getFrequencyFromValue (1 / 10) (1 / 10) 1 := by
  refine ⟨by norm_num, by norm_num, by norm_num, ?_⟩
  rw [getFrequencyFromValue_one_tier, getFrequencyFromValue_tenth_tier]
  norm_num

/-- C2 (amended): for every instrument tier with bounds `0 < low < high`,
the pitch chosen by `getFrequencyFromValue` is monotonically
NON-INCREASING in the transaction's value: for all `v1 ≤ v2`, the
frequency selected for `v2` is at most the frequency selected for `v1`
(the scale array ascends while larger values produce smaller indices, so
higher economic value maps to a lower pitch in the tier's range). -/
theorem getFrequencyFromValue_antitone (low high v1 v2 : ℝ)
    (hl : 0 < low) (hlh : low < high) (h : v1 ≤ v2) :
    getFrequencyFromValue v2 low high ≤ getFrequencyFromValue v1 low high := by
  unfold getFrequencyFromValue
  have h1 : freqIndex v1 low high < DRUM_FREQUENCIES.length := by
    have := @freqIndex_le_fifteen v1 low high hl hlh
    simp only [DRUM_FREQUENCIES, List.length_cons, List.length_nil]
    omega
  exact DRUM_FREQUENCIES_getD_mono (freqIndex_antitone hl hlh h) h1

/-- Witness for the amended C2 theorem: inside the steel-drum tier the
frequency at the top of the tier is at most the frequency at the bottom. -/
theorem getFrequencyFromValue_antitone_witness :
    getFrequencyFromValue 1 (1 / 10) 1 ≤ getFrequencyFromValue (1 / 10) (1 / 10) 1 :=
  getFrequencyFromValue_antitone (1 / 10) 1 (1 / 10) 1
    (by norm_num) (by norm_num) (by norm_num)

/-- C10: for all tier bounds `0 < low < high` and every real input value,
including zero, negative values and values far outside `[low, high]`,
the scale index computed by `getFrequencyFromValue` lies in `[0, 15]` and
the returned frequency is an element of the 16-entry scale: the array
access is never out of bounds. -/
theorem getFrequencyFromValue_safe (btcValue low high : ℝ)
    (hl : 0 < low) (hlh : low < high) :
    freqIndex btcValue low high ≤ 15 ∧
      getFrequencyFromValue btcValue low high ∈ DRUM_FREQUENCIES := by
  have h15 := @freqIndex_le_fifteen btcValue low high hl hlh
  have hlen : freqIndex btcValue low high < DRUM_FREQUENCIES.length := by
    simp only [DRUM_FREQUENCIES, List.length_cons, List.length_nil]
    omega
  refine ⟨h15, ?_⟩
  unfold getFrequencyFromValue
  rw [List.getD_eq_getElem DRUM_FREQUENCIES 0 hlen]
  exact List.getElem_mem hlen

/-- Witness for C10 at a negative input value inside the pluck tier. -/
theorem getFrequencyFromValue_safe_witness :
    freqIndex (-5) (1 / 100000) (1 / 100) ≤ 15 ∧
      getFrequencyFromValue (-5) (1 / 100000) (1 / 100) ∈ DRUM_FREQUENCIES :=
  getFrequencyFromValue_safe (-5) (1 / 100000) (1 / 100) (by norm_num) (by norm_num)

/-- C3 counterexample: the hue mapping is NOT continuous at `feeRate = 1`.
The first band returns 210 at every `feeRate ≤ 1`, while the second band
evaluates to `210 - (f / 50) * 70 ≤ 208.6` for every `f` just above 1, so
the function jumps by at least 1 (in fact by at least 1.4) at 1.  Stated
as an epsilon-delta witness of discontinuity at the point 1. -/
theorem getHueFromFeeRate_discontinuous_at_one :
    ∃ ε : ℚ, 0 < ε ∧ ∀ δ : ℚ, 0 < δ →
      ∃ f : ℚ, |f - 1| < δ ∧ ε ≤ |getHueFromFeeRate f - getHueFromFeeRate 1| := by
  refine ⟨1, one_pos, fun δ hδ => ?_⟩
  have hm : 0 < min δ 1 := lt_min hδ one_pos
  have hm1 : min δ 1 ≤ 1 := min_le_right _ _
  have hmδ : min δ 1 ≤ δ := min_le_left _ _
  refine ⟨1 + min δ 1 / 2, ?_, ?_⟩
  · rw [add_sub_cancel_left, abs_of_pos (by linarith)]
    linarith
  · have hf1 : ¬(1 + min δ 1 / 2 ≤ (1 : ℚ)) := by linarith
    have hf50 : 1 + min δ 1 / 2 ≤ (50 : ℚ) := by linarith
    have h1 : getHueFromFeeRate 1 = 210 := by norm_num [getHueFromFeeRate]
    have h2 : getHueFromFeeRate (1 + min δ 1 / 2) =
        210 - ((1 + min δ 1 / 2) / 50) * 70 := by
      unfold getHueFromFeeRate
      rw [if_neg hf1, if_pos hf50]
    rw [h1, h2, show 210 - (1 + min δ 1 / 2) / 50 * 70 - 210 =
      -((1 + min δ 1 / 2) / 50 * 70) by ring, abs_neg,
      abs_of_pos (by linarith)]
    linarith

/-- C3 (amended): the hue mapping is monotonically non-increasing in
`feeRate` across all four bands, but it has a downward jump at
`feeRate = 1` (every fee rate above 1 maps to a hue at most
208.6 = 1043/5, while `hue 1 = 210`); `hue 1 = 210`, `hue 50 = 140`,
`hue 150 = 45`, `hue f = 0` for every `f ≥ 400`, and `hue f ≥ 0` for
every fee rate `f`. -/
theorem getHueFromFeeRate_props :
    (∀ f1 f2 : ℚ, f1 ≤ f2 → getHueFromFeeRate f2 ≤ getHueFromFeeRate f1) ∧
    (∀ f : ℚ, 1 < f → getHueFromFeeRate f ≤ 1043 / 5) ∧
    getHueFromFeeRate 1 = 210 ∧
    getHueFromFeeRate 50 = 140 ∧
    getHueFromFeeRate 150 = 45 ∧
    (∀ f : ℚ, 400 ≤ f → getHueFromFeeRate f = 0) ∧
    (∀ f : ℚ, 0 ≤ getHueFromFeeRate f) := by
  refine ⟨fun f1 f2 h => getHueFromFeeRate_antitone h, fun f hf => ?_,
    by norm_num [getHueFromFeeRate], by norm_num [getHueFromFeeRate],
    by norm_num [getHueFromFeeRate], fun f hf => getHueFromFeeRate_big hf,
    getHueFromFeeRate_nonneg⟩
  unfold getHueFromFeeRate
  split_ifs <;>
    first
      | linarith
      | (apply max_le <;> linarith)

/-- Witness for the amended C3 theorem at concrete fee rates. -/
theorem getHueFromFeeRate_props_witness :
    getHueFromFeeRate 3 ≤ getHueFromFeeRate 2 ∧
    getHueFromFeeRate 2 ≤ 1043 / 5 ∧
    getHueFromFeeRate 500 = 0 ∧
    0 ≤ getHueFromFeeRate 7 :=
  ⟨getHueFromFeeRate_props.1 2 3 (by norm_num),
   getHueFromFeeRate_props.2.1 2 (by norm_num),
   getHueFromFeeRate_props.2.2.2.2.2.1 500 (by norm_num),
   getHueFromFeeRate_props.2.2.2.2.2.2 7⟩

lemma radiusFromValue_zero : radiusFromValue 0 = 30 := by
  unfold radiusFromValue
  rw [show (0 : ℝ) / 100000000 * 30000 = 0 by norm_num, Real.sqrt_zero,
    zero_add, min_eq_right (by norm_num : (30 : ℝ) ≤ 180),
    max_eq_right (by norm_num : (20 : ℝ) ≤ 30)]

/-- C4 counterexample: the radius of a particle spawned for a zero-value
transaction is 30, not 20: `sqrt(0) + 30 = 30` already lies inside the
clamping interval `[20, 180]`, so the lower clamp never engages. -/
theorem radiusFromValue_zero_ne_twenty :
    radiusFromValue 0 = 30 ∧ (30 : ℝ) ≠ 20 :=
  ⟨radiusFromValue_zero, by norm_num⟩

/-- C4 (amended): the radius of the particle spawned by `addTransaction`
is `clamp(sqrt((v / 1e8) * 30000) + 30, 20, 180)`; this mapping is
monotonic non-decreasing in the value `v` and saturates at the top end
(every value of at least 0.75 BTC gives radius 180); the radius at
`v = 0` is 30 (the lower clamp at 20 never engages), and the radius
always lies in `[20, 180]`. -/
theorem radiusFromValue_props :
    (∀ v : ℝ, radiusFromValue v =
      max 20 (min 180 (Real.sqrt (v / 100000000 * 30000) + 30))) ∧
    (∀ v1 v2 : ℝ, v1 ≤ v2 → radiusFromValue v1 ≤ radiusFromValue v2) ∧
    radiusFromValue 0 = 30 ∧
    (∀ v : ℝ, 75000000 ≤ v → radiusFromValue v = 180) ∧
    (∀ v : ℝ, 20 ≤ radiusFromValue v ∧ radiusFromValue v ≤ 180) := by
  refine ⟨fun v => rfl, fun v1 v2 h => ?_, radiusFromValue_zero,
    fun v hv => ?_, fun v => ⟨le_max_left _ _, max_le (by norm_num) (min_le_left _ _)⟩⟩
  · unfold radiusFromValue
    refine max_le_max le_rfl (min_le_min le_rfl ?_)
    have : v1 / 100000000 * 30000 ≤ v2 / 100000000 * 30000 := by linarith
    linarith [Real.sqrt_le_sqrt this]
  · unfold radiusFromValue
    have ha : (22500 : ℝ) ≤ v / 100000000 * 30000 := by linarith
    have hs : (150 : ℝ) ≤ Real.sqrt (v / 100000000 * 30000) :=
      (Real.le_sqrt (by norm_num) (by linarith)).mpr (by norm_num; linarith)
    rw [min_eq_left (by linarith), max_eq_right (by norm_num)]

/-- Witness for the amended C4 theorem at concrete values. -/
theorem radiusFromValue_props_witness :
    radiusFromValue 3 ≤ radiusFromValue 5 ∧
    radiusFromValue 100000000 = 180 ∧
    20 ≤ radiusFromValue 7 :=
  ⟨radiusFromValue_props.2.1 3 5 (by norm_num),
   radiusFromValue_props.2.2.2.1 100000000 (by norm_num),
   (radiusFromValue_props.2.2.2.2 7).1⟩

lemma handleNewTransaction_eq (q : List QueuedTx) (tx : RawTx) :
    handleNewTransaction q tx =
      if 5000 < (q ++ [mkQueuedTx tx]).length
      then (q ++ [mkQueuedTx tx]).drop 500
      else q ++ [mkQueuedTx tx] := rfl

lemma handleNewTransaction_overflow (q : List QueuedTx) (tx : RawTx)
    (h : 5000 < q.length + 1) :
    handleNewTransaction q tx = (q ++ [mkQueuedTx tx]).drop 500 := by
  rw [handleNewTransaction_eq,
    if_pos (by simpa using h : 5000 < (q ++ [mkQueuedTx tx]).length)]

lemma handleNewTransaction_no_overflow (q : List QueuedTx) (tx : RawTx)
    (h : q.length + 1 ≤ 5000) :
    handleNewTransaction q tx = q ++ [mkQueuedTx tx] := by
  rw [handleNewTransaction_eq,
    if_neg (by simp; omega : ¬5000 < (q ++ [mkQueuedTx tx]).length)]

/-- C1 counterexample: the bulk trim leaves 4501 entries when a push
overflows a full queue of 5000 entries — not at most 4500 — and the
scenario of 5200 pending transactions plus one more push trims to 4701
entries, which is not at most 4700. -/
theorem handleNewTransaction_trim_counts :
    (handleNewTransaction (List.replicate 5000 (⟨10000, 1⟩ : QueuedTx))
        ⟨none, none, none, none⟩).length = 4501 ∧
    ¬(handleNewTransaction (List.replicate 5000 (⟨10000, 1⟩ : QueuedTx))
        ⟨none, none, none, none⟩).length ≤ 4500 ∧
    (handleNewTransaction (List.replicate 5200 (⟨10000, 1⟩ : QueuedTx))
        ⟨none, none, none, none⟩).length = 4701 ∧
    ¬(handleNewTransaction (List.replicate 5200 (⟨10000, 1⟩ : QueuedTx))
        ⟨none, none, none, none⟩).length ≤ 4700 := by
  have h1 := handleNewTransaction_overflow
    (List.replicate 5000 (⟨10000, 1⟩ : QueuedTx)) ⟨none, none, none, none⟩
    (by rw [List.length_replicate]; omega)
  have h2 := handleNewTransaction_overflow
    (List.replicate 5200 (⟨10000, 1⟩ : QueuedTx)) ⟨none, none, none, none⟩
    (by rw [List.length_replicate]; omega)
  rw [h1, h2]
  simp only [List.length_drop, List.length_append, List.length_replicate,
    List.length_singleton]
  norm_num

/-- C1 (amended): for the pending queue mutated by
`handleNewTransaction`, starting from any queue within the 5000 cap the
length after an enqueue never exceeds 5000; immediately after an insert
that would exceed the cap, the 500 oldest entries are dropped in one
bulk trim, so the resulting length is the previous length plus one minus
500 — at most 4501 when starting within the cap (and 4701 in the
5200-entry scenario, not 4700) — and the newest entry is always
retained. -/
theorem handleNewTransaction_queue_cap (q : List QueuedTx) (tx : RawTx) :
    (q.length ≤ 5000 → (handleNewTransaction q tx).length ≤ 5000) ∧
    (5000 < q.length + 1 →
      handleNewTransaction q tx = q.drop 500 ++ [mkQueuedTx tx] ∧
      (handleNewTransaction q tx).length + 500 = q.length + 1) ∧
    (q.length ≤ 5000 → 5000 < q.length + 1 →
      (handleNewTransaction q tx).length ≤ 4501) ∧
    mkQueuedTx tx ∈ handleNewTransaction q tx := by
  by_cases h : 5000 < q.length + 1
  · have h500 : 500 ≤ q.length := by omega
    have he := handleNewTransaction_overflow q tx h
    have hsplit : handleNewTransaction q tx = q.drop 500 ++ [mkQueuedTx tx] := by
      rw [he, List.drop_append_of_le_length h500]
    have hlen : (handleNewTransaction q tx).length + 500 = q.length + 1 := by
      rw [he]
      simp
      omega
    refine ⟨fun hc => by omega, fun _ => ⟨hsplit, hlen⟩, fun hc _ => by omega, ?_⟩
    rw [hsplit]
    exact List.mem_append_right _ (List.mem_singleton.mpr rfl)
  · have he := handleNewTransaction_no_overflow q tx (by omega)
    have hlen : (handleNewTransaction q tx).length = q.length + 1 := by
      rw [he]
      simp
    exact ⟨fun _ => by omega, fun hc => absurd hc h, fun _ hc => absurd hc h,
      by rw [he]; exact List.mem_append_right _ (List.mem_singleton.mpr rfl)⟩

/-- Witness for the amended C1 theorem on a full queue of 5000 entries. -/
theorem handleNewTransaction_queue_cap_witness :
    (handleNewTransaction (List.replicate 5000 (⟨10000, 1⟩ : QueuedTx))
        ⟨none, none, none, none⟩).length ≤ 5000 ∧
    (handleNewTransaction (List.replicate 5000 (⟨10000, 1⟩ : QueuedTx))
        ⟨none, none, none, none⟩).length + 500 =
      (List.replicate 5000 (⟨10000, 1⟩ : QueuedTx)).length + 1 ∧
    (handleNewTransaction (List.replicate 5000 (⟨10000, 1⟩ : QueuedTx))
        ⟨none, none, none, none⟩).length ≤ 4501 ∧
    mkQueuedTx ⟨none, none, none, none⟩ ∈
      handleNewTransaction (List.replicate 5000 (⟨10000, 1⟩ : QueuedTx))
        ⟨none, none, none, none⟩ := by
  have h := handleNewTransaction_queue_cap
    (List.replicate 5000 (⟨10000, 1⟩ : QueuedTx)) ⟨none, none, none, none⟩
  exact ⟨h.1 (by rw [List.length_replicate]),
    (h.2.1 (by rw [List.length_replicate]; omega)).2,
    h.2.2.1 (by rw [List.length_replicate]) (by rw [List.length_replicate]; omega),
    h.2.2.2⟩

/-- C5 counterexample: `playBlockConfirm` is NOT a no-op when the output
context exists but is suspended (not running): its guard only checks
that the context and the master gain exist, so it still schedules the
four-note startup chime on a suspended context. -/
theorem playBlockConfirm_suspended_not_noop :
    (⟨some CtxState.suspended, true, true⟩ : EngineState).ctx ≠
        some CtxState.running ∧
      playBlockConfirm ⟨some CtxState.suspended, true, true⟩ =
        [Voice.chimeNote 196, Voice.chimeNote 246.94, Voice.chimeNote 293.66,
          Voice.chimeNote 392] ∧
      playBlockConfirm ⟨some CtxState.suspended, true, true⟩ ≠ [] := by
  refine ⟨by simp, ?_, ?_⟩ <;> simp [playBlockConfirm, playStartupChime]

/-- C5 (amended): `playTransaction` is a no-op — it schedules no voice
and never throws — whenever the output context is absent or not in the
running state; `playBlockConfirm` is a no-op whenever the context or the
master gain is absent, but it does schedule the chime on a context that
exists in a non-running state. -/
theorem audio_trigger_guards (eng : EngineState) (v : ℚ) (p : ℕ) (r : ℚ) :
    (eng.ctx ≠ some CtxState.running → playTransaction eng v p r = []) ∧
    (eng.ctx = none ∨ eng.masterGain = false → playBlockConfirm eng = []) := by
  constructor
  · intro h
    unfold playTransaction
    rw [if_pos h]
  · rintro (h | h) <;> simp [playBlockConfirm, h]

/-- Witness for the amended C5 theorem on an engine with no context. -/
theorem audio_trigger_guards_witness :
    playTransaction ⟨none, false, false⟩ 250 3 0 = [] ∧
    playBlockConfirm ⟨none, false, false⟩ = [] :=
  ⟨(audio_trigger_guards ⟨none, false, false⟩ 250 3 0).1 (by simp),
   (audio_trigger_guards ⟨none, false, false⟩ 250 3 0).2 (Or.inl rfl)⟩

section PlayTransactionLemmas

variable {eng : EngineState} {v r : ℚ} {p : ℕ}

lemma voiceGuard_true (hrun : eng.ctx = some CtxState.running)
    (hmg : eng.masterGain = true) : voiceGuard eng = true := by
  simp [voiceGuard, hrun, hmg]

lemma playTransaction_pos_eq (hrun : eng.ctx = some CtxState.running)
    (hv : 0 < v) :
    playTransaction eng v p r =
      (if (p % 16 = 4 ∨ p % 16 = 12) ∧ (0 < v / 100000000 ∨ r < 0.3)
        then createOrganSkank eng 392 else []) ++
      (if 1 ≤ v / 100000000 then createWhaleStrike eng (v / 100000000)
       else if 0.1 ≤ v / 100000000 then
         createSteelDrumStrike eng
           (getFrequencyFromValue ((v / 100000000 : ℚ) : ℝ) 0.1 1)
           (v / 100000000)
       else if 0.01 ≤ v / 100000000 then
         createMarimbaStrike eng
           (getFrequencyFromValue ((v / 100000000 : ℚ) : ℝ) 0.01 0.1)
           (v / 100000000)
       else
         createUkulelePluck eng
           (getFrequencyFromValue ((v / 100000000 : ℚ) : ℝ) 0.00001 0.01)
           (v / 100000000)) := by
  have hb : 0 < v / 100000000 := by positivity
  unfold playTransaction
  rw [if_neg (by simp [hrun]), if_neg (not_le.mpr hb)]

lemma playTransaction_zero_eq (hrun : eng.ctx = some CtxState.running) :
    playTransaction eng 0 p r =
      if (p % 16 = 4 ∨ p % 16 = 12) ∧ ((0 : ℚ) < 0 / 100000000 ∨ r < 0.3)
        then createOrganSkank eng 392 else [] := by
  unfold playTransaction
  rw [if_neg (by simp [hrun]), if_pos (by norm_num)]

lemma playTransaction_skank_organ (hrun : eng.ctx = some CtxState.running)
    (hmg : eng.masterGain = true)
    (hskank : p % 16 = 4 ∨ p % 16 = 12) (hv : 0 < v) :
    Voice.organSkank 392 ∈ playTransaction eng v p r := by
  have hb : 0 < v / 100000000 := by positivity
  rw [playTransaction_pos_eq hrun hv, if_pos ⟨hskank, Or.inl hb⟩]
  simp [createOrganSkank, voiceGuard_true hrun hmg]

lemma playTransaction_ghost_organ (hrun : eng.ctx = some CtxState.running)
    (hmg : eng.masterGain = true)
    (hskank : p % 16 = 4 ∨ p % 16 = 12) :
    Voice.organSkank 392 ∈ playTransaction eng 0 p r ↔ r < 0.3 := by
  rw [playTransaction_zero_eq hrun]
  constructor
  · intro hmem
    by_contra hr
    rw [if_neg] at hmem
    · exact absurd hmem (List.not_mem_nil _)
    · rintro ⟨-, h0 | h3⟩
      · norm_num at h0
      · exact hr h3
  · intro hr
    rw [if_pos ⟨hskank, Or.inr hr⟩]
    simp [createOrganSkank, voiceGuard_true hrun hmg]

lemma playTransaction_pos_pitched (hrun : eng.ctx = some CtxState.running)
    (hmg : eng.masterGain = true) (hv : 0 < v) :
    ∃ w ∈ playTransaction eng v p r, isPitched w = true := by
  rw [playTransaction_pos_eq hrun hv]
  have hg := voiceGuard_true hrun hmg
  split_ifs with h1 h2 h3 h4 <;>
    (simp [createWhaleStrike, createSteelDrumStrike, createMarimbaStrike,
      createUkulelePluck, hg]
     first
       | exact ⟨Voice.whaleStrike, Or.inr rfl, rfl⟩
       | exact ⟨Voice.steelDrum _ _, Or.inr rfl, rfl⟩
       | exact ⟨Voice.marimba _, Or.inr rfl, rfl⟩
       | exact ⟨Voice.ukulele _, Or.inr rfl, rfl⟩
       | rfl)

end PlayTransactionLemmas

/-- C7: on every dispatcher tick the scheduled step duration equals the
swing formula of the spec — `base = 200` times `swingFactor` (1.8 when
the queue holds more than 100 entries, else 1.4) on even beats and times
`2 - swingFactor` on odd beats, divided by the congestion speed-up
`min(2.5, 1 + qLen / 150)` and floored at 40 — and is therefore always
at least 40 time-units regardless of inputs. -/
theorem processNextTransaction_delay (eng : EngineState) (st : DispState)
    (r : TickRands) :
    (processNextTransaction eng st r).delay =
      max 40 ((if st.beatIndex % 2 = 0
          then 200 * (if 100 < st.queue.length then (1.8 : ℚ) else 1.4)
          else 200 * (2 - if 100 < st.queue.length then (1.8 : ℚ) else 1.4)) /
        min 2.5 (1 + (st.queue.length : ℚ) / 150)) ∧
    40 ≤ (processNextTransaction eng st r).delay := by
  have hd : (processNextTransaction eng st r).delay =
      stepDuration st.queue.length st.beatIndex := by
    unfold processNextTransaction
    dsimp only
    split_ifs <;> first | rfl | (cases st.queue <;> rfl)
  rw [hd]
  unfold stepDuration swingFactor
  exact ⟨rfl, le_max_left _ _⟩

/-- C6: whenever a dispatcher tick lands on a skank beat (beat position
4 or 12 mod 16) with the engine running and its master gain present, the
fixed-pitch organ-accent voice is scheduled whenever a transaction was
popped from the queue this tick, and on a ghost cue (zero-value) it is
scheduled exactly when the accent's random draw is below 0.3; on a pop
the accent fires in addition to a pitched instrument voice for the
popped transaction. -/
theorem processNextTransaction_skank_accent (eng : EngineState)
    (st : DispState) (r : TickRands)
    (hrun : eng.ctx = some CtxState.running) (hmg : eng.masterGain = true)
    (hskank : st.beatIndex % 16 = 4 ∨ st.beatIndex % 16 = 12)
    (hq : ∀ t ∈ st.queue, 0 < t.value) :
    (∀ tx, (processNextTransaction eng st r).popped = some tx →
      Voice.organSkank 392 ∈ (processNextTransaction eng st r).voices ∧
      ∃ w ∈ (processNextTransaction eng st r).voices, isPitched w = true) ∧
    ((processNextTransaction eng st r).ghost = true →
      (Voice.organSkank 392 ∈ (processNextTransaction eng st r).voices ↔
        r.skankRand < 0.3)) := by
  unfold processNextTransaction
  dsimp only
  generalize (if st.beatIndex % 4 = 0 then (0.95 : ℚ) else 0.6) = prob
  split_ifs with hplay hghost
  · cases hqe : st.queue with
    | nil =>
      rw [hqe] at hplay
      simp at hplay
    | cons tx rest =>
      dsimp only
      have htxpos : 0 < tx.value :=
        hq tx (by rw [hqe]; exact List.mem_cons_self _ _)
      have hvne : ¬tx.value = 0 := ne_of_gt htxpos
      rw [if_neg hvne]
      constructor
      · intro tx2 _
        exact ⟨playTransaction_skank_organ hrun hmg hskank htxpos,
          playTransaction_pos_pitched hrun hmg htxpos⟩
      · intro hg
        exact absurd hg (by simp)
  · constructor
    · intro tx2 hpop
      exact absurd hpop (by simp)
    · intro _
      exact playTransaction_ghost_organ hrun hmg hskank
  · constructor
    · intro tx2 hpop
      exact absurd hpop (by simp)
    · intro hg
      exact absurd hg (by simp)

/-- Witness for the C6 theorem: a concrete tick on beat 4 with a running
engine and a whale transaction at the head of the queue schedules the
organ accent. -/
theorem processNextTransaction_skank_accent_witness :
    Voice.organSkank 392 ∈
      (processNextTransaction ⟨some CtxState.running, true, true⟩
        ⟨[⟨250000000, 5⟩], 4, true⟩ ⟨0, 0, 0⟩).voices := by
  have h := processNextTransaction_skank_accent
    ⟨some CtxState.running, true, true⟩ ⟨[⟨250000000, 5⟩], 4, true⟩ ⟨0, 0, 0⟩
    rfl rfl (Or.inl rfl)
    (by intro t ht; simp at ht; subst ht; norm_num)
  refine (h.1 ⟨250000000, 5⟩ ?_).1
  unfold processNextTransaction
  dsimp only
  rw [if_pos (by norm_num)]
  norm_num

lemma shouldRemove_false_iff (b : Bubble) :
    (!shouldRemove b) = true ↔
      ¬(b.life ≤ 0 ∨ b.y + b.radius * 3 < 0) := by
  simp [shouldRemove, not_or]

/-- C8: on a per-frame update pass of the particle engine, a particle is
removed exactly when, after that frame's life decay and position
integration, its life is at most 0 or its vertical position plus three
radii is negative; hence a particle whose life was set to 0 is removed
on the next pass, a particle whose integrated position satisfies
`y + 3·radius < 0` is removed even if its life is positive, and every
particle surviving the pass has positive life and `y + 3·radius ≥ 0`. -/
theorem renderPass_removal (driftOf : Bubble → ℚ) (bs : List Bubble) :
    (∀ b ∈ bs,
      (stepBubble (driftOf b) b ∈ renderPass driftOf bs ↔
        ¬((stepBubble (driftOf b) b).life ≤ 0 ∨
          (stepBubble (driftOf b) b).y + (stepBubble (driftOf b) b).radius * 3 < 0))) ∧
    (∀ b ∈ bs, b.life = 0 →
      stepBubble (driftOf b) b ∉ renderPass driftOf bs) ∧
    (∀ b ∈ bs,
      (stepBubble (driftOf b) b).y + (stepBubble (driftOf b) b).radius * 3 < 0 →
      stepBubble (driftOf b) b ∉ renderPass driftOf bs) ∧
    (∀ b2 ∈ renderPass driftOf bs, 0 < b2.life ∧ 0 ≤ b2.y + b2.radius * 3) := by
  have hsurv : ∀ b2, b2 ∈ renderPass driftOf bs →
      ¬(b2.life ≤ 0 ∨ b2.y + b2.radius * 3 < 0) := by
    intro b2 h2
    exact (shouldRemove_false_iff b2).mp (List.mem_filter.mp h2).2
  refine ⟨fun b hb => ⟨fun hin => hsurv _ hin, fun hs => ?_⟩,
    fun b hb h0 hin => ?_, fun b hb hy hin => ?_, fun b2 h2 => ?_⟩
  · exact List.mem_filter.mpr
      ⟨List.mem_map_of_mem _ hb, (shouldRemove_false_iff _).mpr hs⟩
  · refine hsurv _ hin (Or.inl ?_)
    simp [stepBubble, h0]
    norm_num
  · exact hsurv _ hin (Or.inr hy)
  · have := hsurv b2 h2
    rw [not_or] at this
    exact ⟨not_le.mp this.1, not_lt.mp this.2⟩

/-- Witness for the C8 theorem on three concrete particles: a surviving
one, one whose life was 0, and one fully above the top edge. -/
theorem renderPass_removal_witness :
    stepBubble 0 (⟨0, 100, 10, 0, -1, 200, 0.85, 1, 5, 1, 0, false⟩ : Bubble) ∈
      renderPass (fun _ => 0)
        [⟨0, 100, 10, 0, -1, 200, 0.85, 0, 5, 1, 0, false⟩,
         ⟨0, -100, 10, 0, -1, 200, 0.85, 1, 5, 1, 0, false⟩,
         ⟨0, 100, 10, 0, -1, 200, 0.85, 1, 5, 1, 0, false⟩] ∧
    stepBubble 0 (⟨0, 100, 10, 0, -1, 200, 0.85, 0, 5, 1, 0, false⟩ : Bubble) ∉
      renderPass (fun _ => 0)
        [⟨0, 100, 10, 0, -1, 200, 0.85, 0, 5, 1, 0, false⟩,
         ⟨0, -100, 10, 0, -1, 200, 0.85, 1, 5, 1, 0, false⟩,
         ⟨0, 100, 10, 0, -1, 200, 0.85, 1, 5, 1, 0, false⟩] ∧
    stepBubble 0 (⟨0, -100, 10, 0, -1, 200, 0.85, 1, 5, 1, 0, false⟩ : Bubble) ∉
      renderPass (fun _ => 0)
        [⟨0, 100, 10, 0, -1, 200, 0.85, 0, 5, 1, 0, false⟩,
         ⟨0, -100, 10, 0, -1, 200, 0.85, 1, 5, 1, 0, false⟩,
         ⟨0, 100, 10, 0, -1, 200, 0.85, 1, 5, 1, 0, false⟩] ∧
    0 < (stepBubble 0 (⟨0, 100, 10, 0, -1, 200, 0.85, 1, 5, 1, 0, false⟩ : Bubble)).life := by
  have h := renderPass_removal (fun _ => 0)
    [⟨0, 100, 10, 0, -1, 200, 0.85, 0, 5, 1, 0, false⟩,
     ⟨0, -100, 10, 0, -1, 200, 0.85, 1, 5, 1, 0, false⟩,
     ⟨0, 100, 10, 0, -1, 200, 0.85, 1, 5, 1, 0, false⟩]
  have hm := (h.1 ⟨0, 100, 10, 0, -1, 200, 0.85, 1, 5, 1, 0, false⟩
      (by simp)).mpr (by norm_num [stepBubble])
  exact ⟨hm,
    h.2.1 ⟨0, 100, 10, 0, -1, 200, 0.85, 0, 5, 1, 0, false⟩ (by simp) rfl,
    h.2.2.1 ⟨0, -100, 10, 0, -1, 200, 0.85, 1, 5, 1, 0, false⟩ (by simp)
      (by norm_num [stepBubble]),
    (h.2.2.2 _ hm).1⟩

lemma handleValue_pos (tx : RawTx)
    (hv : ∀ v, tx.value? = some v → 0 ≤ v)
    (hs : ∀ s, tx.vsize? = some s → 0 ≤ s) :
    0 < handleValue tx := by
  have hfall : (0 : ℚ) <
      (match tx.vsize? with
        | some s => if s = 0 then 10000 else s * 120
        | none => 10000) := by
    cases hsz : tx.vsize? with
    | none => norm_num
    | some s =>
      have hs0 := hs s hsz
      dsimp only
      split_ifs with h
      · norm_num
      · exact mul_pos (lt_of_le_of_ne hs0 (Ne.symm h)) (by norm_num)
  unfold handleValue jsOr
  cases hval : tx.value? with
  | none => exact hfall
  | some v =>
    have hv0 := hv v hval
    dsimp only
    split_ifs with h
    · exact hfall
    · exact lt_of_le_of_ne hv0 (Ne.symm h)

lemma mem_handleNewTransaction {q : List QueuedTx} {tx : RawTx} {t : QueuedTx}
    (ht : t ∈ handleNewTransaction q tx) : t ∈ q ∨ t = mkQueuedTx tx := by
  rw [handleNewTransaction_eq] at ht
  split_ifs at ht with h
  · have := List.mem_of_mem_drop ht
    simpa using this
  · simpa using ht

/-- C9: assuming every present `value` and `vsize` field of an ingested
record is non-negative, every transaction pushed into the pending queue
by `handleNewTransaction` has a strictly positive value (a zero or
missing value is replaced by `vsize * 120` when the vsize is truthy,
else by the fallback 10000); consequently, whenever every queued value
is positive, the transaction popped by a dispatcher tick and forwarded
to `playTransaction` carries a strictly positive value and — with the
engine running and its master gain present — a pitched instrument-tier
voice is always selected for it. -/
theorem queue_value_positive :
    (∀ (q : List QueuedTx) (tx : RawTx),
      (∀ v, tx.value? = some v → 0 ≤ v) →
      (∀ s, tx.vsize? = some s → 0 ≤ s) →
      (∀ t ∈ q, 0 < t.value) →
      ∀ t ∈ handleNewTransaction q tx, 0 < t.value) ∧
    (∀ (eng : EngineState) (st : DispState) (r : TickRands),
      (∀ t ∈ st.queue, 0 < t.value) →
      ∀ tx, (processNextTransaction eng st r).popped = some tx →
        0 < tx.value ∧
        (eng.ctx = some CtxState.running → eng.masterGain = true →
          ∃ w ∈ (processNextTransaction eng st r).voices, isPitched w = true)) := by
  constructor
  · intro q tx hv hs hq t ht
    rcases mem_handleNewTransaction ht with h | h
    · exact hq t h
    · rw [h]
      exact handleValue_pos tx hv hs
  · intro eng st r hq tx2
    unfold processNextTransaction
    dsimp only
    generalize (if st.beatIndex % 4 = 0 then (0.95 : ℚ) else 0.6) = prob
    split_ifs with hplay hghost
    · cases hqe : st.queue with
      | nil =>
        rw [hqe] at hplay
        simp at hplay
      | cons tx rest =>
        dsimp only
        have htxpos : 0 < tx.value :=
          hq tx (by rw [hqe]; exact List.mem_cons_self _ _)
        have hvne : ¬tx.value = 0 := ne_of_gt htxpos
        rw [if_neg hvne]
        intro hpop
        simp only [Option.some.injEq] at hpop
        rw [← hpop]
        exact ⟨htxpos, fun hrun hmg =>
          playTransaction_pos_pitched hrun hmg htxpos⟩
    · intro hpop
      exact absurd hpop (by simp)
    · intro hpop
      exact absurd hpop (by simp)

/-- Witness for the C9 theorem: a concrete ingested record with a
present non-negative value, and a concrete dispatcher tick that pops a
whale transaction. -/
theorem queue_value_positive_witness :
    0 < (mkQueuedTx ⟨some 5, none, none, none⟩).value ∧
    0 < ((⟨250000000, 5⟩ : QueuedTx)).value := by
  constructor
  · refine queue_value_positive.1 [] ⟨some 5, none, none, none⟩
      (fun v h => by injection h with h; rw [← h]; norm_num)
      (fun s h => by cases h)
      (fun t ht => absurd ht (List.not_mem_nil t))
      (mkQueuedTx ⟨some 5, none, none, none⟩) ?_
    rw [handleNewTransaction_no_overflow _ _ (by norm_num)]
    simp
  · refine (queue_value_positive.2 ⟨some CtxState.running, true, true⟩
      ⟨[⟨250000000, 5⟩], 0, true⟩ ⟨0, 0, 0⟩
      (by intro t ht; simp at ht; subst ht; norm_num)
      ⟨250000000, 5⟩ ?_).1
    unfold processNextTransaction
    dsimp only
    rw [if_pos (by norm_num)]
    norm_num

end MempoolRadio
